import Mathlib

/-!
Verification of the rwkv-tokenizer-C core (src/rwkv_tokenizer.c): a byte-level
trie tokenizer with greedy longest-match encoding and raw-byte fallback.

Bytes are modelled as `Nat` (the C source works on `unsigned char`, 0..255).
Token ids are `Nat` on the API side (the loader passes non-negative ids); the
trie stores values as `Int` with the sentinel `-1` meaning "no terminal here",
exactly as the C source initialises `node->value = -1` in `createTrieNode`.
Fallible C functions (a `NULL` return, a `-1` length) are modelled with
`Option`.  The 256-slot child array of a node is a function
`Nat → Option TrieNode`; a `calloc`-fresh node has every slot empty.
-/

namespace RwkvTokenizer

set_option maxRecDepth 8192

/-- `#define MAX_TOKENS 100000` (source line 7). -/
def MAX_TOKENS : Nat := 100000

/-- `#define MAX_TOKEN_LENGTH 256` (source line 8). -/
def MAX_TOKEN_LENGTH : Nat := 256

/-- `struct TrieNode` (source lines 10..13): 256 child slots and an `int value`,
`-1` when the node is not a terminal. -/
inductive TrieNode : Type where
  | mk : Int → (Nat → Option TrieNode) → TrieNode

/-- The `value` field of a node. -/
def TrieNode.value : TrieNode → Int
  | .mk v _ => v

/-- The `children` array of a node. -/
def TrieNode.children : TrieNode → Nat → Option TrieNode
  | .mk _ cs => cs

/-- `createTrieNode` (source lines 22..30): `calloc` zeroes every child slot and
the value is set to `-1`. -/
def createTrieNode : TrieNode := .mk (-1) (fun _ => none)

/-- `insertTrie` (source lines 32..42): walk the key, creating missing children,
then set the terminal value of the final node. -/
def insertTrie : TrieNode → List Nat → Int → TrieNode
  | .mk _ cs, [], v => .mk v cs
  | .mk nv cs, b :: bs, v =>
    .mk nv (fun x =>
      if x = b then some (insertTrie ((cs b).getD createTrieNode) bs v) else cs x)

/-- The loop of `findLongest` (source lines 44..58).  State: current node, the
bytes still ahead, the running `index`, and the best `(value, endIndex)` seen.
The C loop runs `while (index < data_length && node->children[data[index]])`,
descends, increments `index`, and records `(node->value, index)` whenever the
node just reached is a terminal. -/
def findLongestAux : TrieNode → List Nat → Nat → Int → Nat → Int × Nat
  | _, [], _, value, endIndex => (value, endIndex)
  | node, b :: rest, index, value, endIndex =>
    match node.children b with
    | none => (value, endIndex)
    | some child =>
      if child.value ≠ -1 then findLongestAux child rest (index + 1) child.value (index + 1)
      else findLongestAux child rest (index + 1) value endIndex

/-- `findLongest` (source lines 44..58): the C caller passes `data + offset`, so
`data` here is the byte suffix being scanned; the result is the returned value
paired with the out-parameter `*endIndex` (initialised to `(-1, 0)`). -/
def findLongest (root : TrieNode) (data : List Nat) : Int × Nat :=
  findLongestAux root data 0 (-1) 0

/-- `Tokenizer` (source lines 15..20).  `idx2token` is the id-to-bytes table
(`NULL`, i.e. `none`, where no entry was stored); `token2idx` is written by
`addToken` and never read; `num_tokens` counts `addToken` calls. -/
structure Tokenizer where
  root : TrieNode
  idx2token : Nat → Option (List Nat)
  token2idx : Nat → Nat
  num_tokens : Nat

/-- `createTokenizer` (source lines 60..69): `calloc` zeroes both tables. -/
def createTokenizer : Tokenizer :=
  { root := createTrieNode
    idx2token := fun _ => none
    token2idx := fun _ => 0
    num_tokens := 0 }

/-- `parse_hex` (source lines 71..76), on a byte: 48..57 are `0`..`9`,
97..102 are `a`..`f`, 65..70 are `A`..`F`. -/
def parse_hex (c : Nat) : Int :=
  if 48 ≤ c ∧ c ≤ 57 then (c : Int) - 48
  else if 97 ≤ c ∧ c ≤ 102 then (c : Int) - 97 + 10
  else if 65 ≤ c ∧ c ≤ 70 then (c : Int) - 65 + 10
  else -1

/-- The `while (*literal != quote && len < out_len)` loop of
`parse_python_literal` (source lines 90..120), over the literal bytes after the
opening quote.  `acc` holds `out[0..len)`.  Escape bytes: 92 is the backslash,
110 `n`, 114 `r`, 116 `t`, 39 the single quote, 34 the double quote, 120 `x`.
`none` models the `-1` error return for a bad escape (a `\x` with a missing or
invalid hex digit reads the terminator or fails `parse_hex`, both `-1` in C).
The `[]` case stops with the bytes so far; the C loop there would run past the
buffer, and every literal used below contains its closing quote, so the case is
never reached in the theorems. -/
def parseLiteralLoop (quote : Nat) (out_len : Nat) : List Nat → List Nat → Option (List Nat)
  | [], acc => some acc
  | c :: rest, acc =>
    if c = quote then some acc
    else if out_len ≤ acc.length then some acc
    else if c = 92 then
      match rest with
      | [] => none
      | e :: rest2 =>
        if e = 110 then parseLiteralLoop quote out_len rest2 (acc ++ [10])
        else if e = 114 then parseLiteralLoop quote out_len rest2 (acc ++ [13])
        else if e = 116 then parseLiteralLoop quote out_len rest2 (acc ++ [9])
        else if e = 92 then parseLiteralLoop quote out_len rest2 (acc ++ [92])
        else if e = 39 then parseLiteralLoop quote out_len rest2 (acc ++ [39])
        else if e = 34 then parseLiteralLoop quote out_len rest2 (acc ++ [34])
        else if e = 120 then
          match rest2 with
          | h1 :: h2 :: rest3 =>
            if parse_hex h1 ≠ -1 ∧ parse_hex h2 ≠ -1 then
              parseLiteralLoop quote out_len rest3
                (acc ++ [(parse_hex h1).toNat * 16 + (parse_hex h2).toNat])
            else none
          | _ => none
        else none
    else parseLiteralLoop quote out_len rest (acc ++ [c])

/-- `parse_python_literal` (source lines 78..123): skip a leading `b` (byte 98;
the `is_byte_string` flag it sets is never used), take the next byte as the
quote, then run the loop.  `none` for the empty literal models the read past
the buffer the C code would do there; no theorem uses that case. -/
def parse_python_literal (literal : List Nat) (out_len : Nat) : Option (List Nat) :=
  let lit := if literal.head? = some 98 then literal.tail else literal
  match lit with
  | [] => none
  | q :: rest => parseLiteralLoop q out_len rest []

/-- The registration body of `addToken` (source lines 134..143), after the
literal has been parsed to `token`: insert into the trie, store the bytes under
`id` (the C copy gets a terminating NUL appended; `decode` reads it back with
`strlen`, see `cstrBytes`), set `token2idx[id] = id`, bump `num_tokens`. -/
def registerToken (t : Tokenizer) (token : List Nat) (id : Nat) : Tokenizer :=
  { root := insertTrie t.root token (id : Int)
    idx2token := fun i => if i = id then some token else t.idx2token i
    token2idx := fun i => if i = id then id else t.token2idx i
    num_tokens := t.num_tokens + 1 }

/-- `addToken` (source lines 125..144): parse the literal with the
`MAX_TOKEN_LENGTH` output bound; on a parse error print and return (state
unchanged), otherwise register. -/
def addToken (t : Tokenizer) (token_literal : List Nat) (id : Nat) : Tokenizer :=
  match parse_python_literal token_literal MAX_TOKEN_LENGTH with
  | none => t
  | some token => registerToken t token id

/-- The loop of `encode` (source lines 146..167).  `index` is the absolute
position in `text`; `findLongest` is called on `text + index` so its returned
`endIndex` is relative to that suffix.  The C exit test is
`endIndex == index || id == -1`: note it compares the relative `endIndex`
against the absolute `index`.  `fuel` only bounds the iteration count; the loop
advances `index` by at least 1 per iteration (`findLongest_pos` below), so the
wrapper's `text.length` iterations always suffice (`encodeLoop_fuel`). -/
def encodeLoop (root : TrieNode) (text : List Nat) : Nat → Nat → List Nat
  | 0, _ => []
  | fuel + 1, index =>
    if h : index < text.length then
      let fl := findLongest root (text.drop index)
      if fl.2 = index ∨ fl.1 = -1 then
        text.get ⟨index, h⟩ :: encodeLoop root text fuel (index + 1)
      else
        fl.1.toNat :: encodeLoop root text fuel (index + fl.2)
    else []

/-- `encode` (source lines 146..167).  The C signature takes a NUL-terminated
`char*`, so callers can only pass NUL-free byte sequences; the model takes the
byte list directly. -/
def encode (t : Tokenizer) (text : List Nat) : List Nat :=
  encodeLoop t.root text text.length 0

/-- Modelled from the spec (section 4.3 pseudocode): the Encoder loop with exit
test `consumed == 0 or id == NONE`, where the source instead compares the
relative match length `endIndex` with the absolute position `index`.  Used only
to exhibit the divergence of `encode` from the specified algorithm. -/
def encodeSpecLoop (root : TrieNode) (text : List Nat) : Nat → Nat → List Nat
  | 0, _ => []
  | fuel + 1, index =>
    if h : index < text.length then
      let fl := findLongest root (text.drop index)
      if fl.2 = 0 ∨ fl.1 = -1 then
        text.get ⟨index, h⟩ :: encodeSpecLoop root text fuel (index + 1)
      else
        fl.1.toNat :: encodeSpecLoop root text fuel (index + fl.2)
    else []

/-- The bytes `strlen`/`memcpy` read from the stored copy of a token: `addToken`
appends a terminating NUL to the stored bytes, and `decode` measures the entry
with `strlen` (source lines 176 and 193), so only the bytes before the first
NUL of the token are seen. -/
def cstrBytes (bs : List Nat) : List Nat := bs.takeWhile (fun b => b ≠ 0)

/-- The per-id validity test of the first `decode` pass (source lines 171..181):
an id below 256 is always fine, otherwise it must be below `num_tokens` with a
stored entry, else `decode` returns `NULL`. -/
def decodeOk (t : Tokenizer) (id : Nat) : Bool :=
  decide (id < 256) || (decide (id < t.num_tokens) && (t.idx2token id).isSome)

/-- The bytes the second `decode` pass emits for one id (source lines 188..197):
a single raw byte for an id below 256, the `strlen`-measured stored bytes for a
table id, nothing otherwise (that branch is unreachable after the first pass). -/
def decodeEmit (t : Tokenizer) (id : Nat) : List Nat :=
  if id < 256 then [id]
  else if id < t.num_tokens ∧ (t.idx2token id).isSome then cstrBytes ((t.idx2token id).getD [])
  else []

/-- `decode` (source lines 169..200): the first pass validates every id (and
computes the total length); only when all ids pass does the second pass emit,
so failure produces no partial output. -/
def decode (t : Tokenizer) (ids : List Nat) : Option (List Nat) :=
  if ids.all (decodeOk t) then some ((ids.map (decodeEmit t)).flatten) else none

/-- The terminal value the trie holds for a byte-string: walk the exact path and
read the final value, `-1` when some edge is missing.  A byte-string `b` is
registered exactly when `lookupTrie root b ≠ -1`; this is the reference notion
the longest-match theorems are stated against. -/
def lookupTrie : TrieNode → List Nat → Int
  | node, [] => node.value
  | node, b :: bs =>
    match node.children b with
    | none => -1
    | some child => lookupTrie child bs

/-- The best terminal met strictly below the root on the walk of `data`:
`some (v, L)` when the longest nonempty registered prefix of `data` has length
`L` and value `v`.  Recursive restatement of the walk, used to relate
`findLongest` to `lookupTrie`. -/
def bestFrom : TrieNode → List Nat → Option (Int × Nat)
  | _, [] => none
  | node, b :: rest =>
    match node.children b with
    | none => none
    | some child =>
      match bestFrom child rest with
      | some (v, L) => some (v, L + 1)
      | none => if child.value ≠ -1 then some (child.value, 1) else none


/-! ## The walk of `findLongest` computes the best nonempty registered prefix -/

/-- The loop state update of `findLongestAux` agrees with `bestFrom`: the loop
returns the carried best pair untouched when no terminal lies ahead, and the
deepest terminal ahead (its length offset by the current index) otherwise. -/
theorem findLongestAux_eq_bestFrom (data : List Nat) :
    ∀ (node : TrieNode) (index : Nat) (value : Int) (endIndex : Nat),
      findLongestAux node data index value endIndex =
        match bestFrom node data with
        | none => (value, endIndex)
        | some (v, L) => (v, index + L) := by
  induction data with
  | nil => intro node index value endIndex; rfl
  | cons b rest ih =>
    intro node index value endIndex
    cases hn : node.children b with
    | none => simp [findLongestAux, bestFrom, hn]
    | some child =>
      by_cases hv : child.value = -1
      · simp only [findLongestAux, bestFrom, hn, hv, ne_eq, not_true_eq_false, if_false,
          ite_false]
        rw [ih child]
        cases hb : bestFrom child rest with
        | none => simp
        | some p =>
          obtain ⟨v, L⟩ := p
          simp [Prod.ext_iff]
          omega
      · simp only [findLongestAux, bestFrom, hn, hv, ne_eq, not_false_eq_true, if_true,
          ite_true]
        rw [ih child]
        cases hb : bestFrom child rest with
        | none => simp
        | some p =>
          obtain ⟨v, L⟩ := p
          simp [Prod.ext_iff]
          omega

/-- `findLongest` in terms of `bestFrom`. -/
theorem findLongest_eq_bestFrom (root : TrieNode) (data : List Nat) :
    findLongest root data =
      match bestFrom root data with
      | none => ((-1 : Int), 0)
      | some (v, L) => (v, L) := by
  rw [findLongest, findLongestAux_eq_bestFrom]
  cases bestFrom root data with
  | none => rfl
  | some p => obtain ⟨v, L⟩ := p; simp

/-- `bestFrom` returns nothing exactly when no nonempty prefix of the data is
registered in the trie. -/
theorem bestFrom_eq_none_iff (data : List Nat) : ∀ (node : TrieNode),
    bestFrom node data = none ↔
      ∀ L, 1 ≤ L → L ≤ data.length → lookupTrie node (data.take L) = -1 := by
  induction data with
  | nil =>
    intro node
    constructor
    · intro _ L h1 h2
      simp at h2
      omega
    · intro _; rfl
  | cons b rest ih =>
    intro node
    cases hn : node.children b with
    | none =>
      simp only [bestFrom, hn, true_iff]
      intro L h1 h2
      obtain ⟨k, rfl⟩ : ∃ k, L = k + 1 := ⟨L - 1, by omega⟩
      simp [List.take_succ_cons, lookupTrie, hn]
    | some child =>
      cases hb : bestFrom child rest with
      | some p =>
        obtain ⟨v, L0⟩ := p
        have hnot : ¬(∀ L, 1 ≤ L → L ≤ rest.length → lookupTrie child (rest.take L) = -1) := by
          rw [← ih child]
          simp [hb]
        have hself : bestFrom node (b :: rest) = some (v, L0 + 1) := by
          simp [bestFrom, hn, hb]
        rw [hself]
        constructor
        · intro h
          exact absurd h (by simp)
        · intro hall
          refine absurd ?_ hnot
          intro L h1 h2
          have := hall (L + 1) (by omega) (by simp; omega)
          simpa [List.take_succ_cons, lookupTrie, hn] using this
      | none =>
        by_cases hv : child.value = -1
        · have hself : bestFrom node (b :: rest) = none := by
            simp [bestFrom, hn, hb, hv]
          rw [hself]
          simp only [true_iff]
          intro L h1 h2
          obtain ⟨k, rfl⟩ : ∃ k, L = k + 1 := ⟨L - 1, by omega⟩
          simp only [List.take_succ_cons, lookupTrie, hn]
          cases k with
          | zero => simpa [lookupTrie] using hv
          | succ m =>
            have := (ih child).mp hb (m + 1) (by omega) (by simp at h2 ⊢; omega)
            exact this
        · have hself : bestFrom node (b :: rest) = some (child.value, 1) := by
            simp [bestFrom, hn, hb, hv]
          rw [hself]
          constructor
          · intro h
            exact absurd h (by simp)
          · intro hall
            have h1 := hall 1 (by omega) (by simp)
            simp [List.take_succ_cons, lookupTrie, hn] at h1
            exact absurd h1 hv

/-- What a hit of `bestFrom` means: the returned pair is a registered nonempty
prefix of the data, and no longer prefix is registered. -/
theorem bestFrom_eq_some (data : List Nat) : ∀ (node : TrieNode) (v : Int) (L : Nat),
    bestFrom node data = some (v, L) →
      1 ≤ L ∧ L ≤ data.length ∧ lookupTrie node (data.take L) = v ∧ v ≠ -1 ∧
        ∀ Lp, L < Lp → Lp ≤ data.length → lookupTrie node (data.take Lp) = -1 := by
  induction data with
  | nil => intro node v L h; simp [bestFrom] at h
  | cons b rest ih =>
    intro node v L h
    cases hn : node.children b with
    | none => simp [bestFrom, hn] at h
    | some child =>
      cases hb : bestFrom child rest with
      | some p =>
        obtain ⟨v0, L0⟩ := p
        simp only [bestFrom, hn, hb, Option.some.injEq, Prod.mk.injEq] at h
        obtain ⟨rfl, rfl⟩ := h
        obtain ⟨h1, h2, h3, h4, h5⟩ := ih child v0 L0 hb
        refine ⟨by omega, by simp; omega, ?_, h4, ?_⟩
        · simpa [List.take_succ_cons, lookupTrie, hn] using h3
        · intro Lp hlt hle
          obtain ⟨k, rfl⟩ : ∃ k, Lp = k + 1 := ⟨Lp - 1, by omega⟩
          simp only [List.take_succ_cons, lookupTrie, hn]
          exact h5 k (by omega) (by simp at hle; omega)
      | none =>
        by_cases hv : child.value = -1
        · simp [bestFrom, hn, hb, hv] at h
        · simp only [bestFrom, hn, hb, hv, ne_eq, not_false_eq_true, ite_true, if_true,
            Option.some.injEq, Prod.mk.injEq] at h
          obtain ⟨rfl, rfl⟩ := h
          refine ⟨by omega, by simp, ?_, hv, ?_⟩
          · simp [List.take_succ_cons, lookupTrie, hn]
          · intro Lp hlt hle
            obtain ⟨k, rfl⟩ : ∃ k, Lp = k + 1 := ⟨Lp - 1, by omega⟩
            simp only [List.take_succ_cons, lookupTrie, hn]
            exact (bestFrom_eq_none_iff rest child).mp hb k (by omega) (by simp at hle; omega)

/-- A reported match always consumes at least one byte. -/
theorem findLongest_pos (root : TrieNode) (data : List Nat)
    (h : (findLongest root data).1 ≠ -1) : 1 ≤ (findLongest root data).2 := by
  rw [findLongest_eq_bestFrom] at h ⊢
  cases hb : bestFrom root data with
  | none => rw [hb] at h; simp at h
  | some p =>
    obtain ⟨v, L⟩ := p
    obtain ⟨h1, _⟩ := bestFrom_eq_some data root v L hb
    simpa using h1

/-! ## Insertion and lookup -/

/-- A fresh node holds no association at all. -/
theorem lookupTrie_createTrieNode : ∀ (bs : List Nat), lookupTrie createTrieNode bs = -1
  | [] => rfl
  | _ :: _ => rfl

/-- Inserting `b` writes exactly the association of `b` and leaves every other
byte-string alone: last write wins, intermediate nodes created on the way are
non-terminal. -/
theorem lookupTrie_insertTrie (b : List Nat) :
    ∀ (root : TrieNode) (v : Int) (bp : List Nat),
      lookupTrie (insertTrie root b v) bp = if bp = b then v else lookupTrie root bp := by
  induction b with
  | nil =>
    intro root v bp
    cases root with
    | mk rv cs =>
      cases bp with
      | nil => simp [insertTrie, lookupTrie, TrieNode.value]
      | cons y ys => simp [insertTrie, lookupTrie, TrieNode.children]
  | cons x xs ih =>
    intro root v bp
    cases root with
    | mk rv cs =>
      cases bp with
      | nil => simp [insertTrie, lookupTrie, TrieNode.value]
      | cons y ys =>
        by_cases hxy : y = x
        · subst hxy
          have hstep :
              lookupTrie (insertTrie (TrieNode.mk rv cs) (y :: xs) v) (y :: ys) =
                lookupTrie (insertTrie ((cs y).getD createTrieNode) xs v) ys := by
            simp [insertTrie, lookupTrie, TrieNode.children]
          rw [hstep, ih]
          cases hcs : cs y with
          | some c0 =>
            simp only [Option.getD_some]
            by_cases hys : ys = xs
            · simp [hys]
            · simp [hys, lookupTrie, TrieNode.children, hcs]
          | none =>
            simp only [Option.getD_none]
            by_cases hys : ys = xs
            · simp [hys]
            · simp [hys, lookupTrie, TrieNode.children, hcs, lookupTrie_createTrieNode]
        · have hne : (y :: ys) ≠ (x :: xs) := by simp [hxy]
          simp [insertTrie, lookupTrie, TrieNode.children, hxy, hne]

/-! ## The encode loop -/

/-- `findLongestAux` never reads the value of the node it starts from. -/
theorem findLongestAux_mk_value (v vp : Int) (cs : Nat → Option TrieNode)
    (data : List Nat) (index : Nat) (value : Int) (endIndex : Nat) :
    findLongestAux (.mk v cs) data index value endIndex =
      findLongestAux (.mk vp cs) data index value endIndex := by
  cases data with
  | nil => rfl
  | cons b rest =>
    simp only [findLongestAux, TrieNode.children]

/-- `findLongest` never reads the root value: the root terminal cannot be
reported. -/
theorem findLongest_mk_value (v vp : Int) (cs : Nat → Option TrieNode) (data : List Nat) :
    findLongest (.mk v cs) data = findLongest (.mk vp cs) data := by
  rw [findLongest, findLongest, findLongestAux_mk_value]

/-- Any fuel of at least `text.length - index` computes the same list: the loop
always stops by running `index` past the text, never by running out of fuel. -/
theorem encodeLoop_fuel (root : TrieNode) (text : List Nat) :
    ∀ (fuel fuelp index : Nat), text.length - index ≤ fuel → text.length - index ≤ fuelp →
      encodeLoop root text fuel index = encodeLoop root text fuelp index := by
  intro fuel
  induction fuel with
  | zero =>
    intro fuelp index h _
    cases fuelp with
    | zero => rfl
    | succ n =>
      have : ¬ index < text.length := by omega
      simp [encodeLoop, this]
  | succ n ih =>
    intro fuelp index h hp
    cases fuelp with
    | zero =>
      have : ¬ index < text.length := by omega
      simp [encodeLoop, this]
    | succ m =>
      by_cases hidx : index < text.length
      · simp only [encodeLoop, hidx, dite_true, dif_pos]
        by_cases hc : (findLongest root (text.drop index)).2 = index ∨
            (findLongest root (text.drop index)).1 = -1
        · simp only [hc, ite_true, if_pos]
          rw [ih m (index + 1) (by omega) (by omega)]
        · have hpos : 1 ≤ (findLongest root (text.drop index)).2 :=
            findLongest_pos root (text.drop index) (by tauto)
          simp only [hc, ite_false, if_neg, not_false_eq_true]
          rw [ih m (index + (findLongest root (text.drop index)).2) (by omega) (by omega)]
      · simp [encodeLoop, hidx]

/-- One id is emitted per loop iteration and `index` advances by at least one
byte per iteration, so at most one id is produced per input byte. -/
theorem encodeLoop_length (root : TrieNode) (text : List Nat) :
    ∀ (fuel index : Nat), (encodeLoop root text fuel index).length ≤ text.length - index := by
  intro fuel
  induction fuel with
  | zero => intro index; simp [encodeLoop]
  | succ n ih =>
    intro index
    by_cases hidx : index < text.length
    · simp only [encodeLoop, hidx, dite_true, dif_pos]
      by_cases hc : (findLongest root (text.drop index)).2 = index ∨
          (findLongest root (text.drop index)).1 = -1
      · simp only [hc, ite_true, if_pos, List.length_cons]
        have := ih (index + 1)
        omega
      · have hpos : 1 ≤ (findLongest root (text.drop index)).2 :=
          findLongest_pos root (text.drop index) (by tauto)
        simp only [hc, ite_false, if_neg, not_false_eq_true, List.length_cons]
        have := ih (index + (findLongest root (text.drop index)).2)
        omega
    · simp [encodeLoop, hidx]

/-- When no nonempty suffix match exists anywhere, every iteration takes the
raw-byte fallback branch and the loop reproduces the remaining text. -/
theorem encodeLoop_all_fallback (root : TrieNode) (text : List Nat)
    (hall : ∀ j, findLongest root (text.drop j) = (-1, 0)) :
    ∀ (fuel index : Nat), text.length - index ≤ fuel →
      encodeLoop root text fuel index = text.drop index := by
  intro fuel
  induction fuel with
  | zero =>
    intro index h
    have : text.length ≤ index := by omega
    simp [encodeLoop, List.drop_eq_nil_of_le this]
  | succ n ih =>
    intro index h
    by_cases hidx : index < text.length
    · have hmatch := hall index
      simp only [encodeLoop, hidx, dite_true, dif_pos, hmatch]
      simp only [ite_true, if_pos, or_true]
      rw [ih (index + 1) (by omega)]
      simp only [List.get_eq_getElem]
      exact List.getElem_cons_drop text index hidx
    · have : text.length ≤ index := by omega
      simp [encodeLoop, hidx, List.drop_eq_nil_of_le this]

/-- The encode loop never depends on the root value (the root terminal is dead
state for encoding). -/
theorem encodeLoop_mk_value (v vp : Int) (cs : Nat → Option TrieNode) (text : List Nat) :
    ∀ (fuel index : Nat),
      encodeLoop (.mk v cs) text fuel index = encodeLoop (.mk vp cs) text fuel index := by
  intro fuel
  induction fuel with
  | zero => intro index; rfl
  | succ n ih =>
    intro index
    by_cases hidx : index < text.length
    · simp only [encodeLoop, hidx, dite_true, dif_pos]
      rw [findLongest_mk_value v vp]
      by_cases hc : (findLongest (.mk vp cs) (text.drop index)).2 = index ∨
          (findLongest (.mk vp cs) (text.drop index)).1 = -1
      · simp only [hc, ite_true, if_pos, ih]
      · simp only [hc, ite_false, if_neg, not_false_eq_true, ih]
    · simp [encodeLoop, hidx]

/-! ## The literal-parsing loop on plain content -/

/-- On content bytes that are neither the single quote (39) nor a backslash
(92), the loop copies bytes until the closing quote or the output cap, so the
result is the content truncated to the remaining output room: the loop rejects
nothing and reports no overflow. -/
theorem parseLiteralLoop_plain (out_len : Nat) :
    ∀ (bs acc : List Nat), (∀ b ∈ bs, b ≠ 39 ∧ b ≠ 92) →
      parseLiteralLoop 39 out_len (bs ++ [39]) acc =
        some (acc ++ bs.take (out_len - acc.length)) := by
  intro bs
  induction bs with
  | nil => intro acc _; simp [parseLiteralLoop]
  | cons b rest ih =>
    intro acc hb
    obtain ⟨hb1, hb2⟩ := hb b (by simp)
    have hrest : ∀ x ∈ rest, x ≠ 39 ∧ x ≠ 92 := fun x hx => hb x (by simp [hx])
    by_cases hcap : out_len ≤ acc.length
    · have hz : out_len - acc.length = 0 := by omega
      rw [parseLiteralLoop.eq_def]
      simp [hb1, hcap, hz]
    · have hstep :
          parseLiteralLoop 39 out_len ((b :: rest) ++ [39]) acc =
            parseLiteralLoop 39 out_len (rest ++ [39]) (acc ++ [b]) := by
        rw [List.cons_append, parseLiteralLoop.eq_def]
        simp [hb1, hb2, hcap]
      rw [hstep, ih (acc ++ [b]) hrest]
      have harith : out_len - acc.length = (out_len - (acc ++ [b]).length) + 1 := by
        simp only [List.length_append, List.length_cons, List.length_nil]
        omega
      rw [harith, List.take_succ_cons]
      simp

/-- `parse_python_literal` on a quoted literal whose content bytes are plain
(neither the quote 39 nor the backslash 92): the parsed token is the content
truncated to `MAX_TOKEN_LENGTH` bytes; over-long content is not an error. -/
theorem parse_plain_literal (bs : List Nat) (h : ∀ b ∈ bs, b ≠ 39 ∧ b ≠ 92) :
    parse_python_literal (39 :: (bs ++ [39])) MAX_TOKEN_LENGTH =
      some (bs.take MAX_TOKEN_LENGTH) := by
  have hloop := parseLiteralLoop_plain MAX_TOKEN_LENGTH bs [] h
  simp only [parse_python_literal, List.head?, List.tail]
  norm_num
  simpa using hloop

/-! ## The claims -/

/-- C1: the claimed unconditional round-trip fails on the code.  With the valid
vocabulary holding the single entry id 300 for the bytes "ab" (an id of at
least 256, as the spec requires of vocabulary ids), `encode` of "ab" yields
`[300]`, but `decode` rejects 300: the source guards table lookups with
`id < num_tokens` (line 175), the count of registered entries (here 1), instead
of testing presence in the table, so `decode (encode t)` is an error rather
than `t`. -/
theorem roundtrip_fails_on_sparse_ids :
    encode (registerToken createTokenizer [97, 98] 300) [97, 98] = [300] ∧
    decode (registerToken createTokenizer [97, 98] 300) [300] = none := by decide

/-- C2: `encode` is not greedy longest match at every position.  With the
vocabulary holding byte "b" (98) under id 300 and input [120, 98], the length-1
match at absolute position 1 is discarded, because the source compares the
relative match length `endIndex` against the absolute position `index`
(line 158) instead of against zero; byte 98 is emitted as a raw fallback.  The
Encoder algorithm of the spec (exit on `consumed == 0`, `encodeSpecLoop`)
yields [120, 300] on the same input. -/
theorem encode_not_greedy :
    encode (registerToken createTokenizer [98] 300) [120, 98] = [120, 98] ∧
    encodeSpecLoop (registerToken createTokenizer [98] 300).root [120, 98] 2 0 =
      [120, 300] := by decide

/-- C3: `decode` does not accept every registered id of at least 256: after
registering id 300, the table holds its bytes, yet `decode [300]` fails,
because the lookup guard `id < num_tokens` (source line 175) compares the id
against the entry count (1 here), not against table membership. -/
theorem decode_rejects_registered_id :
    (registerToken createTokenizer [97, 98] 300).idx2token 300 = some [97, 98] ∧
    decode (registerToken createTokenizer [97, 98] 300) [300] = none := by decide

/-- C4: `findLongest` returns the value and byte length of the longest nonempty
registered byte-string (registration of `bs` being `lookupTrie root bs ≠ -1`)
that is a prefix of the scanned data — the best terminal seen anywhere along
the walk, not merely the deepest node — and returns the no-match pair `(-1, 0)`
exactly when no terminal is met on the walked path.  The data argument is the
suffix `data + offset` the C caller passes, so this covers every offset. -/
theorem findLongest_longest_match (root : TrieNode) (data : List Nat) :
    (findLongest root data = (-1, 0) ∧
       ∀ L, 1 ≤ L → L ≤ data.length → lookupTrie root (data.take L) = -1) ∨
    (∃ v L, findLongest root data = (v, L) ∧ 1 ≤ L ∧ L ≤ data.length ∧
       lookupTrie root (data.take L) = v ∧ v ≠ -1 ∧
       ∀ Lp, L < Lp → Lp ≤ data.length → lookupTrie root (data.take Lp) = -1) := by
  cases hb : bestFrom root data with
  | none =>
    left
    exact ⟨by rw [findLongest_eq_bestFrom, hb], (bestFrom_eq_none_iff data root).mp hb⟩
  | some p =>
    obtain ⟨v, L⟩ := p
    right
    obtain ⟨h1, h2, h3, h4, h5⟩ := bestFrom_eq_some data root v L hb
    exact ⟨v, L, by rw [findLongest_eq_bestFrom, hb], h1, h2, h3, h4, h5⟩

/-- C5 counterexample: a vocabulary entry of `MAX_TOKEN_LENGTH + 1 = 257` bytes
(a quoted literal with 257 plain content bytes) is not rejected and does not
leave the table unchanged: `addToken` registers the first 256 bytes (silent
truncation by the `len < out_len` bound of the parse loop) and bumps
`num_tokens`; the source has no TokenTooLong failure path at all. -/
theorem addToken_overlong_registers :
    (addToken createTokenizer (39 :: (List.replicate 257 97 ++ [39])) 300).idx2token 300 =
        some (List.replicate 256 97) ∧
    (addToken createTokenizer (39 :: (List.replicate 257 97 ++ [39])) 300).num_tokens = 1 ∧
    createTokenizer.idx2token 300 = none := by decide

/-- C5 (amended): an entry of exactly `MAX_TOKEN_LENGTH` (256) plain content
bytes is accepted in full; an entry of more than `MAX_TOKEN_LENGTH` bytes is
not rejected with any TokenTooLong error — `addToken` silently truncates the
content to its first 256 bytes, registers that truncation in the trie and the
table, and counts the entry. -/
theorem addToken_truncates_overlong (t : Tokenizer) (bs : List Nat) (id : Nat)
    (h : ∀ b ∈ bs, b ≠ 39 ∧ b ≠ 92) :
    addToken t (39 :: (bs ++ [39])) id = registerToken t (bs.take MAX_TOKEN_LENGTH) id ∧
    (bs.length ≤ MAX_TOKEN_LENGTH →
      addToken t (39 :: (bs ++ [39])) id = registerToken t bs id) ∧
    (addToken t (39 :: (bs ++ [39])) id).num_tokens = t.num_tokens + 1 := by
  have hp := parse_plain_literal bs h
  have hmain : addToken t (39 :: (bs ++ [39])) id =
      registerToken t (bs.take MAX_TOKEN_LENGTH) id := by
    simp only [addToken, hp]
  refine ⟨hmain, ?_, ?_⟩
  · intro hle
    rw [hmain, List.take_of_length_le hle]
  · rw [hmain]
    rfl

/-- C5 witness: the amended statement at the two-byte entry "ab" under id 300. -/
theorem addToken_truncates_overlong_witness :
    (∀ b ∈ [97, 98], b ≠ 39 ∧ b ≠ 92) ∧
    (addToken createTokenizer (39 :: (([97, 98] : List Nat) ++ [39])) 300 =
        registerToken createTokenizer (([97, 98] : List Nat).take MAX_TOKEN_LENGTH) 300 ∧
      (([97, 98] : List Nat).length ≤ MAX_TOKEN_LENGTH →
        addToken createTokenizer (39 :: (([97, 98] : List Nat) ++ [39])) 300 =
          registerToken createTokenizer [97, 98] 300) ∧
      (addToken createTokenizer (39 :: (([97, 98] : List Nat) ++ [39])) 300).num_tokens =
        createTokenizer.num_tokens + 1) :=
  ⟨by decide, addToken_truncates_overlong createTokenizer [97, 98] 300 (by decide)⟩

/-- The tokenizer used for C6: the byte-string [97, 0, 98] (it contains a NUL)
registered under id 256, re-registered until `num_tokens` reaches 257 so that
id 256 passes the `id < num_tokens` guard of `decode`. -/
def nulTokenizer : Tokenizer :=
  (List.range 257).foldl (fun acc _ => registerToken acc [97, 0, 98] 256) createTokenizer

/-- C6: `decode` does not emit a stored byte-string verbatim when it contains a
NUL byte: id 256 holds the bytes [97, 0, 98], yet `decode [256]` returns only
[97] — `addToken` stores the token NUL-terminated and `decode` measures it with
`strlen` (source lines 176 and 193), so everything from the first NUL on is
dropped. -/
theorem decode_truncates_at_nul :
    nulTokenizer.idx2token 256 = some [97, 0, 98] ∧
    nulTokenizer.num_tokens = 257 ∧
    decode nulTokenizer [256] = some [97] := by decide

/-- C7: fallback purity: when no nonempty registered byte-string is a prefix of
the text at any position, `encode` emits exactly the byte values of the text,
one fallback id per input byte. -/
theorem encode_fallback_purity (t : Tokenizer) (text : List Nat)
    (h : ∀ i, i < text.length → ∀ L, L ≤ text.length → 1 ≤ L →
        lookupTrie t.root ((text.drop i).take L) = -1) :
    encode t text = text := by
  have hall : ∀ j, findLongest t.root (text.drop j) = (-1, 0) := by
    intro j
    rw [findLongest_eq_bestFrom]
    have hnone : bestFrom t.root (text.drop j) = none := by
      by_cases hj : j < text.length
      · rw [bestFrom_eq_none_iff]
        intro L h1 h2
        refine h j hj L ?_ h1
        simp only [List.length_drop] at h2
        omega
      · have hnil : text.drop j = [] := List.drop_eq_nil_of_le (by omega)
        rw [hnil]
        rfl
    rw [hnone]
  have := encodeLoop_all_fallback t.root text hall text.length 0 (by omega)
  simpa [encode] using this

/-- C7 witness: vocabulary {"ab" under id 300}, text "xy" — nothing matches
anywhere, and encode reproduces the bytes. -/
theorem encode_fallback_purity_witness :
    (∀ i, i < ([120, 121] : List Nat).length →
      ∀ L, L ≤ ([120, 121] : List Nat).length → 1 ≤ L →
        lookupTrie (registerToken createTokenizer [97, 98] 300).root
          ((([120, 121] : List Nat).drop i).take L) = -1) ∧
    encode (registerToken createTokenizer [97, 98] 300) [120, 121] = [120, 121] :=
  ⟨by decide,
    encode_fallback_purity (registerToken createTokenizer [97, 98] 300) [120, 121] (by decide)⟩

/-- C8: `encode` is total: it is a function into plain lists (never an error),
the fuelled loop always terminates within `text.length` iterations because each
iteration emits one id and advances the position by at least one byte
(`encodeLoop_fuel`, `findLongest_pos`), the output never has more ids than the
input has bytes, and the empty input encodes to the empty sequence. -/
theorem encode_total_length (t : Tokenizer) (text : List Nat) :
    (encode t text).length ≤ text.length ∧ encode t [] = [] := by
  constructor
  · have := encodeLoop_length t.root text text.length 0
    simpa [encode] using this
  · rfl

/-- C9: every byte-string in the trie carries at most one terminal id, the one
of its most recent insertion: inserting `b` rewrites exactly the association of
`b` (last write wins) and leaves every other byte-string untouched, and for a
nonempty `b` whose latest insertion assigned the id, `findLongest` on exactly
`b` returns that id with the full length of `b`. -/
theorem insert_last_write_wins (root : TrieNode) (b bp : List Nat) (vp : Int) (id : Nat)
    (hb : b ≠ []) :
    lookupTrie (insertTrie root b vp) bp = (if bp = b then vp else lookupTrie root bp) ∧
    findLongest (insertTrie root b (id : Int)) b = ((id : Int), b.length) := by
  refine ⟨lookupTrie_insertTrie b root vp bp, ?_⟩
  have hlk : lookupTrie (insertTrie root b (id : Int)) b = (id : Int) := by
    rw [lookupTrie_insertTrie]
    simp
  have hne : ((id : Int)) ≠ -1 := by omega
  cases hbf : bestFrom (insertTrie root b (id : Int)) b with
  | none =>
    have hlen : 1 ≤ b.length := by
      have := List.length_pos.mpr hb
      omega
    have hnil := (bestFrom_eq_none_iff b _).mp hbf b.length hlen (le_refl _)
    rw [List.take_length] at hnil
    exact absurd (hlk.symm.trans hnil) hne
  | some p =>
    obtain ⟨v, L⟩ := p
    obtain ⟨h1, h2, h3, h4, h5⟩ := bestFrom_eq_some b _ v L hbf
    have hL : L = b.length := by
      by_contra hlt
      have := h5 b.length (by omega) (le_refl _)
      rw [List.take_length] at this
      exact hne (hlk.symm.trans this)
    subst hL
    rw [List.take_length] at h3
    have hv : v = (id : Int) := h3.symm.trans hlk
    rw [findLongest_eq_bestFrom, hbf, hv]

/-- C9 witness: insert [97] with value 5 over a fresh root, look it up, and
check the match of [97] after inserting it with id 300. -/
theorem insert_last_write_wins_witness :
    (([97] : List Nat) ≠ []) ∧
    (lookupTrie (insertTrie createTrieNode [97] 5) [97] =
        (if ([97] : List Nat) = [97] then (5 : Int) else lookupTrie createTrieNode [97]) ∧
      findLongest (insertTrie createTrieNode [97] ((300 : Nat) : Int)) [97] =
        (((300 : Nat) : Int), ([97] : List Nat).length)) :=
  ⟨by decide, insert_last_write_wins createTrieNode [97] [97] 5 300 (by decide)⟩

/-- C10: a reported match of `findLongest` always consumes at least one byte
(the walk reads terminal values only after descending an edge, so the root
terminal is never returned), and registering the empty byte-string — which only
sets the root terminal — has no effect on the output of `encode` for any
input. -/
theorem empty_token_no_encode_effect (t : Tokenizer) (id : Nat) (text : List Nat)
    (root : TrieNode) (data : List Nat) (hm : (findLongest root data).1 ≠ -1) :
    encode (registerToken t [] id) text = encode t text ∧
    1 ≤ (findLongest root data).2 := by
  refine ⟨?_, findLongest_pos root data hm⟩
  cases htr : t.root with
  | mk v cs =>
    have hroot : (registerToken t [] id).root = TrieNode.mk (id : Int) cs := by
      simp [registerToken, htr, insertTrie]
    rw [encode, encode, hroot, htr, encodeLoop_mk_value (id : Int) v cs]

/-- C10 witness: registering the empty byte-string under id 5 leaves the
encoding of [97] (under a vocabulary holding [97] with id 300) unchanged, and
the concrete match of [97] has positive length. -/
theorem empty_token_no_encode_effect_witness :
    ((findLongest (registerToken createTokenizer [97] 300).root [97]).1 ≠ -1) ∧
    (encode (registerToken createTokenizer [] 5) [97] = encode createTokenizer [97] ∧
      1 ≤ (findLongest (registerToken createTokenizer [97] 300).root [97]).2) :=
  ⟨by decide,
    empty_token_no_encode_effect createTokenizer 5 [97]
      (registerToken createTokenizer [97] 300).root [97] (by decide)⟩

end RwkvTokenizer
